import Mathlib

/-!
Shallow embedding of the fleet-health dashboard core (`src/App.tsx`):
the data model (server registry entries and stats), the pure status and
alert evaluators, the metric parsers over JSON-like values, the registry
reconciler operations, the PM2 toast throttle, the reconnect backoff and
the paging `chunk` function.  JavaScript numbers are modelled as rationals,
timestamps (ms since epoch) as integers, `undefined`/`null` as `Option`.
-/

set_option autoImplicit false

namespace BCD

/-- JSON-like values, the loosely-typed inbound payloads the parsers read.
`jnull` stands for JSON `null`; an absent field is `Option.none` at the
access site. -/
inductive JValue where
  | jnull
  | jbool (b : Bool)
  | jnum (q : ℚ)
  | jstr (s : String)
  | jarr (items : List JValue)
  | jobj (fields : List (String × JValue))

/-- Lookup in a JavaScript `Map` built from a list of pairs (later entries
overwrite earlier ones), and in JSON objects (duplicate keys: last wins). -/
def mapGet {β : Type} (pairs : List (String × β)) (k : String) : Option β :=
  (pairs.reverse.find? (fun kv => kv.1 = k)).map (fun kv => kv.2)

/-- JavaScript `Map.set`: replace the value when the key is present,
append the pair otherwise. -/
def mapSet {β : Type} (pairs : List (String × β)) (k : String) (v : β) :
    List (String × β) :=
  if pairs.any (fun kv => kv.1 = k) then
    pairs.map (fun kv => if kv.1 = k then (k, v) else kv)
  else
    pairs ++ [(k, v)]

/-- Property access `value[k]` on a JSON value: defined only on objects. -/
def jget (v : JValue) (k : String) : Option JValue :=
  match v with
  | .jobj fields => mapGet fields k
  | _ => none

/-- Mirrors `toString` from the source: the value when it is a string, else `undefined`. -/
def jsToString (v : Option JValue) : Option String :=
  match v with
  | some (.jstr s) => some s
  | _ => none

/-- Mirrors `toNumber` from the source: the value when it is a number, else `undefined`. -/
def jsToNumber (v : Option JValue) : Option ℚ :=
  match v with
  | some (.jnum q) => some q
  | _ => none

/-- Mirrors `toBoolean` from the source. -/
def jsToBoolean (v : Option JValue) : Option Bool :=
  match v with
  | some (.jbool b) => some b
  | _ => none

/-- Mirrors `toStringArray` from the source: keep the string elements of an array,
anything else yields `[]`. -/
def jsToStringArray (v : Option JValue) : List String :=
  match v with
  | some (.jarr items) =>
    items.filterMap (fun item =>
      match item with
      | .jstr s => some s
      | _ => none)
  | _ => []

/-- Mirrors `isRecord(x) ? toNumber(x[k]) : undefined` — reading a nested numeric
field defensively (absence at any level gives `none`). -/
def readNestedNumber (v : JValue) (outer inner : String) : Option ℚ :=
  match jget v outer with
  | some o => jsToNumber (jget o inner)
  | none => none

/-- Mirrors `isRecord(x) ? toString(x[k]) : undefined` for nested string fields. -/
def readNestedString (v : JValue) (outer inner : String) : Option String :=
  match jget v outer with
  | some o => jsToString (jget o inner)
  | none => none

/-- Mirrors `status.toLowerCase()` on ASCII data, written over the character list so
that it evaluates structurally. -/
def jsToLowerCase (s : String) : String := ⟨s.data.map Char.toLower⟩

/-- JavaScript string truthiness: non-empty. Used for `stats.error` checks. -/
def truthyStr (v : Option String) : Bool :=
  match v with
  | some s => s ≠ ""
  | none => false

/-- Mirrors `a || b` on an optional string vs a string: first operand when truthy,
otherwise the second operand as given. -/
def jsOrStr (a : Option String) (b : String) : String :=
  match a with
  | some s => if s = "" then b else s
  | none => b

/-- Mirrors `clamp` from the source. -/
def clamp (value lo hi : ℚ) : ℚ := min hi (max lo value)

/-- Mirrors `percent` from the source: undefined when either operand is absent or the
total is zero, otherwise the ratio as a percentage clamped to `[0, 100]`. -/
def percent (part total : Option ℚ) : Option ℚ :=
  match part, total with
  | some p, some t => if t = 0 then none else some (clamp (p / t * 100) 0 100)
  | _, _ => none

/-- Mirrors `ServerStats` from the source: every field independently optional. -/
structure ServerStats where
  cpuUsage : Option ℚ := none
  memoryTotal : Option ℚ := none
  memoryUsed : Option ℚ := none
  diskTotal : Option ℚ := none
  diskUsed : Option ℚ := none
  uptime : Option String := none
  pm2Procs : Option ℚ := none
  pm2Mem : Option ℚ := none
  pm2BadCount : Option ℚ := none
  pm2BadNames : Option (List String) := none
  supervisorTotal : Option ℚ := none
  supervisorRunning : Option ℚ := none
  error : Option String := none
  deriving DecidableEq, Repr

/-- Mirrors `ServerEntry` from the source. -/
structure ServerEntry where
  id : String
  name : String
  host : String
  enabled : Bool
  tags : List String
  stats : Option ServerStats := none
  lastUpdate : Option ℤ := none
  deriving DecidableEq, Repr

/-- The six status keys of the classifier. -/
inductive StatusKey where
  | ok
  | warn
  | down
  | idle
  | stale
  | disabled
  deriving DecidableEq, Repr

/-- Mirrors `StatusInfo` from the source. -/
structure StatusInfo where
  key : StatusKey
  label : String
  deriving DecidableEq, Repr

/-- Mirrors `server.lastUpdate ? now - server.lastUpdate : Infinity`: the age of an
entry, `none` standing for `Infinity` (taken when `lastUpdate` is absent or
`0`, which is falsy in JavaScript). -/
def ageOf (now : ℤ) (lastUpdate : Option ℤ) : Option ℤ :=
  match lastUpdate with
  | some lu => if lu = 0 then none else some (now - lu)
  | none => none

/-- Mirrors `age > threshold` where `age = none` means `Infinity`. -/
def ageExceeds (age : Option ℤ) (threshold : ℤ) : Bool :=
  match age with
  | some a => a > threshold
  | none => true

/-- Mirrors `getStatus` from the source: the fixed-precedence classifier. -/
def getStatus (server : ServerEntry) (now : ℤ) : StatusInfo :=
  if !server.enabled then ⟨.disabled, "Disabled"⟩
  else
    match server.stats with
    | none => ⟨.idle, "Waiting"⟩
    | some stats =>
      if truthyStr stats.error then ⟨.down, "Error"⟩
      else if ageExceeds (ageOf now server.lastUpdate) 60000 then ⟨.stale, "Stale"⟩
      else
        let memPercent := (percent stats.memoryUsed stats.memoryTotal).getD 0
        let diskPercent := (percent stats.diskUsed stats.diskTotal).getD 0
        let cpu := stats.cpuUsage.getD 0
        if cpu > 85 ∨ memPercent > 90 ∨ diskPercent > 92 then ⟨.warn, "Hot"⟩
        else ⟨.ok, "Nominal"⟩

/-- The configurable alert thresholds (`VITE_ALERT_*`, with their defaults). -/
structure AlertConfig where
  alertCpu : ℚ := 90
  alertMemory : ℚ := 92
  alertDisk : ℚ := 95
  alertStaleMs : ℤ := 90000

/-- Mirrors `shouldAlert` from the source, parameterised by the threshold config. -/
def shouldAlert (cfg : AlertConfig) (server : ServerEntry) (now : ℤ) : Bool :=
  if !server.enabled then false
  else
    match server.stats with
    | none => false
    | some stats =>
      if truthyStr stats.error then true
      else if ageExceeds (ageOf now server.lastUpdate) cfg.alertStaleMs then true
      else
        let memPercent := (percent stats.memoryUsed stats.memoryTotal).getD 0
        let diskPercent := (percent stats.diskUsed stats.diskTotal).getD 0
        let cpu := stats.cpuUsage.getD 0
        let pm2Bad := stats.pm2BadCount.getD 0 > 0
        cpu ≥ cfg.alertCpu ∨ memPercent ≥ cfg.alertMemory ∨
          diskPercent ≥ cfg.alertDisk ∨ pm2Bad

/-- The slicing loop of `chunk` for a positive size `n + 1`: page `i` is
`items.slice(i*(n+1), (i+1)*(n+1))`.  The `fuel` argument only bounds the
number of loop iterations so the recursion is structural; every caller
passes `items.length`, which is always enough. -/
def chunkGo {α : Type} (fuel : ℕ) (items : List α) (n : ℕ) : List (List α) :=
  match fuel, items with
  | _, [] => []
  | 0, _ :: _ => []
  | fuel + 1, x :: xs => (x :: xs).take (n + 1) :: chunkGo fuel ((x :: xs).drop (n + 1)) n

/-- Mirrors `chunk` from the source: non-positive size returns the whole list as one
page; otherwise consecutive slices of `size`, with `[[]]` when no page was
produced. -/
def chunk {α : Type} (items : List α) (size : ℕ) : List (List α) :=
  if size = 0 then [items]
  else
    let pages := chunkGo items.length items (size - 1)
    if pages.isEmpty then [[]] else pages

/-- Mirrors `IncomingServerListItem` from the source. -/
structure IncomingServerListItem where
  server_id : String
  server_name : Option String := none
  host : Option String := none
  enabled : Bool := true
  tags : List String := []
  deriving DecidableEq, Repr

/-- Mirrors `IncomingServerUpdate` from the source; `error = none` covers both the
absent and the `null` case (merged identically by `?? null`). -/
structure IncomingServerUpdate where
  server_id : String
  error : Option String := none
  cpuUsage : Option ℚ := none
  memoryTotal : Option ℚ := none
  memoryUsed : Option ℚ := none
  diskTotal : Option ℚ := none
  diskUsed : Option ℚ := none
  uptime : Option String := none
  pm2Procs : Option ℚ := none
  pm2Mem : Option ℚ := none
  pm2BadCount : Option ℚ := none
  pm2BadNames : Option (List String) := none
  supervisorTotal : Option ℚ := none
  supervisorRunning : Option ℚ := none
  deriving DecidableEq, Repr

/-- Mirrors `IncomingServerError` from the source. -/
structure IncomingServerError where
  server_id : String
  error : Option String := none
  deriving DecidableEq, Repr

/-- Mirrors `parseServerList` from the source: keep array entries that are records
with a truthy string `server_id`; `enabled` defaults to `true`. -/
def parseServerList (value : JValue) : List IncomingServerListItem :=
  match value with
  | .jarr entries =>
    entries.filterMap (fun entry =>
      match entry with
      | .jobj _ =>
        match jsToString (jget entry "server_id") with
        | some sid =>
          if sid = "" then none
          else some
            { server_id := sid
              server_name := jsToString (jget entry "server_name")
              host := jsToString (jget entry "host")
              enabled := (jsToBoolean (jget entry "enabled")).getD true
              tags := jsToStringArray (jget entry "tags") }
        | none => none
      | _ => none)
  | _ => []

/-- Mirrors `parseApiServerList` from the source: like `parseServerList` but over
`value.servers`, keyed by `id` with `server_id` as fallback. -/
def parseApiServerList (value : JValue) : List IncomingServerListItem :=
  match value with
  | .jobj _ =>
    match jget value "servers" with
    | some (.jarr entries) =>
      entries.filterMap (fun entry =>
        match entry with
        | .jobj _ =>
          match (jsToString (jget entry "id")).orElse
              (fun _ => jsToString (jget entry "server_id")) with
          | some sid =>
            if sid = "" then none
            else some
              { server_id := sid
                server_name := (jsToString (jget entry "name")).orElse
                  (fun _ => jsToString (jget entry "server_name"))
                host := jsToString (jget entry "host")
                enabled := (jsToBoolean (jget entry "enabled")).getD true
                tags := jsToStringArray (jget entry "tags") }
          | none => none
        | _ => none)
    | _ => []
  | _ => []

/-- The detail entries of `x.pm2.details` when present as an array. -/
def pm2DetailsOf (v : JValue) : Option (List JValue) :=
  match jget v "pm2" with
  | some p =>
    match jget p "details" with
    | some (.jarr details) => some details
    | _ => none
  | none => none

/-- One PM2 detail counts as bad when it is a record with a truthy `status`
string whose lowercase form differs from `"online"`. -/
def isBadDetail (detail : JValue) : Bool :=
  match detail with
  | .jobj _ =>
    match jsToString (jget detail "status") with
    | some s => s ≠ "" && jsToLowerCase s ≠ "online"
    | none => false
  | _ => false

/-- The display name of a bad PM2 detail: `name`, else `id`, else
`"unknown"`. -/
def badDetailName (detail : JValue) : String :=
  ((jsToString (jget detail "name")).orElse
    (fun _ => jsToString (jget detail "id"))).getD "unknown"

/-- The loop body both parsers run over `pm2.details`: collect the names of
the bad entries in order. -/
def collectBadNames (details : List JValue) : List String :=
  details.filterMap (fun detail =>
    match detail with
    | .jobj _ =>
      match jsToString (jget detail "status") with
      | some s =>
        if s ≠ "" && jsToLowerCase s ≠ "online" then
          some (((jsToString (jget detail "name")).orElse
            (fun _ => jsToString (jget detail "id"))).getD "unknown")
        else none
      | none => none
    | _ => none)

/-- Mirrors `parseServerUpdate` from the source: a record with a truthy `server_id`
yields an update whose nested numeric fields are read defensively and whose
PM2 bad fields are derived from `pm2.details` when that array exists. -/
def parseServerUpdate (value : JValue) : Option IncomingServerUpdate :=
  match value with
  | .jobj _ =>
    match jsToString (jget value "server_id") with
    | some sid =>
      if sid = "" then none
      else
        let badFields : Option ℚ × Option (List String) :=
          match pm2DetailsOf value with
          | some details =>
            let badNames := collectBadNames details
            (some (badNames.length : ℚ), some (badNames.take 3))
          | none => (none, none)
        some
          { server_id := sid
            error := jsToString (jget value "error")
            cpuUsage := readNestedNumber value "cpu" "usage_percent"
            memoryTotal := readNestedNumber value "memory" "total_bytes"
            memoryUsed := readNestedNumber value "memory" "used_bytes"
            diskTotal := readNestedNumber value "disk" "total_bytes"
            diskUsed := readNestedNumber value "disk" "used_bytes"
            uptime := readNestedString value "uptime" "human"
            pm2Procs := readNestedNumber value "pm2" "processes"
            pm2Mem := readNestedNumber value "pm2" "total_memory_bytes"
            pm2BadCount := badFields.1
            pm2BadNames := badFields.2
            supervisorTotal := readNestedNumber value "supervisor" "total"
            supervisorRunning := readNestedNumber value "supervisor" "running" }
    | none => none
  | _ => none

/-- The body of `parseStatsList`'s `forEach`: one entry of `value.servers`,
keyed by `server_id` with `id` as fallback. -/
def parseStatsEntry (entry : JValue) : Option IncomingServerUpdate :=
  match entry with
  | .jobj _ =>
    match (jsToString (jget entry "server_id")).orElse
        (fun _ => jsToString (jget entry "id")) with
    | some sid =>
      if sid = "" then none
      else
        let badFields : Option ℚ × Option (List String) :=
          match pm2DetailsOf entry with
          | some details =>
            let badNames := collectBadNames details
            (some (badNames.length : ℚ), some (badNames.take 3))
          | none => (none, none)
        some
          { server_id := sid
            error := jsToString (jget entry "error")
            cpuUsage := readNestedNumber entry "cpu" "usage_percent"
            memoryTotal := readNestedNumber entry "memory" "total_bytes"
            memoryUsed := readNestedNumber entry "memory" "used_bytes"
            diskTotal := readNestedNumber entry "disk" "total_bytes"
            diskUsed := readNestedNumber entry "disk" "used_bytes"
            uptime := readNestedString entry "uptime" "human"
            pm2Procs := readNestedNumber entry "pm2" "processes"
            pm2Mem := readNestedNumber entry "pm2" "total_memory_bytes"
            pm2BadCount := badFields.1
            pm2BadNames := badFields.2
            supervisorTotal := readNestedNumber entry "supervisor" "total"
            supervisorRunning := readNestedNumber entry "supervisor" "running" }
    | none => none
  | _ => none

/-- Mirrors `parseStatsList` from the source: iterate `value.servers` with the same
per-entry normalisation as the push parser. -/
def parseStatsList (value : JValue) : List IncomingServerUpdate :=
  match value with
  | .jobj _ =>
    match jget value "servers" with
    | some (.jarr entries) => entries.filterMap parseStatsEntry
    | _ => []
  | _ => []

/-- Mirrors `parseServerError` from the source. -/
def parseServerError (value : JValue) : Option IncomingServerError :=
  match value with
  | .jobj _ =>
    match jsToString (jget value "server_id") with
    | some sid =>
      if sid = "" then none
      else some { server_id := sid, error := jsToString (jget value "error") }
    | none => none
  | _ => none

/-- Mirrors `applyServerList` from the source (the registry part): a non-empty
incoming list wholesale replaces the membership, carrying forward the
matching previous entry's `stats` and `lastUpdate`; an empty list is a
no-op. The previous entries are looked up through a `Map` keyed by `id`. -/
def applyServerList (incoming : List IncomingServerListItem)
    (prev : List ServerEntry) : List ServerEntry :=
  if incoming.isEmpty then prev
  else
    let prevMap := prev.map (fun item => (item.id, item))
    incoming.map (fun item =>
      let existing := mapGet prevMap item.server_id
      { id := item.server_id
        name := jsOrStr item.server_name (jsOrStr item.host item.server_id)
        host := jsOrStr item.host "--"
        enabled := item.enabled
        tags := item.tags
        stats := existing.bind (fun e => e.stats)
        lastUpdate := existing.bind (fun e => e.lastUpdate) })

/-- The merged stats object `applyServerUpdates` builds for a matched entry:
every metric field is `payload.f ?? item.stats?.f`, while `error` is
`payload.error ?? null`. -/
def mergeStats (payload : IncomingServerUpdate) (old : Option ServerStats) :
    ServerStats :=
  { error := payload.error
    cpuUsage := payload.cpuUsage.orElse (fun _ => old.bind (fun s => s.cpuUsage))
    memoryTotal := payload.memoryTotal.orElse (fun _ => old.bind (fun s => s.memoryTotal))
    memoryUsed := payload.memoryUsed.orElse (fun _ => old.bind (fun s => s.memoryUsed))
    diskTotal := payload.diskTotal.orElse (fun _ => old.bind (fun s => s.diskTotal))
    diskUsed := payload.diskUsed.orElse (fun _ => old.bind (fun s => s.diskUsed))
    uptime := payload.uptime.orElse (fun _ => old.bind (fun s => s.uptime))
    pm2Procs := payload.pm2Procs.orElse (fun _ => old.bind (fun s => s.pm2Procs))
    pm2Mem := payload.pm2Mem.orElse (fun _ => old.bind (fun s => s.pm2Mem))
    pm2BadCount := payload.pm2BadCount.orElse (fun _ => old.bind (fun s => s.pm2BadCount))
    pm2BadNames := payload.pm2BadNames.orElse (fun _ => old.bind (fun s => s.pm2BadNames))
    supervisorTotal := payload.supervisorTotal.orElse (fun _ => old.bind (fun s => s.supervisorTotal))
    supervisorRunning := payload.supervisorRunning.orElse (fun _ => old.bind (fun s => s.supervisorRunning)) }

/-- Mirrors `applyServerUpdates` from the source: a non-empty update list is merged
entry-by-entry through a `Map` keyed by `server_id`; matched entries get the
merged stats and `lastUpdate := timestamp` (the `Date.now()` taken once); an
empty list is a no-op. -/
def applyServerUpdates (updates : List IncomingServerUpdate) (timestamp : ℤ)
    (prev : List ServerEntry) : List ServerEntry :=
  if updates.isEmpty then prev
  else
    let updateMap := updates.map (fun item => (item.server_id, item))
    prev.map (fun item =>
      match mapGet updateMap item.id with
      | none => item
      | some payload =>
        { item with
          stats := some (mergeStats payload item.stats)
          lastUpdate := some timestamp })

/-- Mirrors `applyServerError` from the source: the matching entry's stats keep their
fields but `error` becomes `payload.error || 'Server error'`, and
`lastUpdate` is refreshed. An absent stats object spreads to `{}`. -/
def applyServerError (payload : IncomingServerError) (timestamp : ℤ)
    (prev : List ServerEntry) : List ServerEntry :=
  prev.map (fun item =>
    if item.id = payload.server_id then
      { item with
        stats := some { item.stats.getD {} with
          error := some (jsOrStr payload.error "Server error") }
        lastUpdate := some timestamp }
    else item)

/-- One registry mutation, with the `Date.now()` stamp the handler observes. -/
inductive RegistryOp where
  | list (incoming : List IncomingServerListItem)
  | updates (batch : List IncomingServerUpdate) (timestamp : ℤ)
  | reportedError (payload : IncomingServerError) (timestamp : ℤ)

/-- Apply one registry operation. -/
def applyOp (reg : List ServerEntry) (op : RegistryOp) : List ServerEntry :=
  match op with
  | .list incoming => applyServerList incoming reg
  | .updates batch ts => applyServerUpdates batch ts reg
  | .reportedError payload ts => applyServerError payload ts reg

/-- Run a sequence of registry operations from the empty registry. -/
def runOps (ops : List RegistryOp) : List ServerEntry :=
  ops.foldl applyOp []

/-- The operation's `Date.now()` stamp is positive (it always is after the
epoch); list snapshots carry no stamp. -/
def opTimestampPos (op : RegistryOp) : Prop :=
  match op with
  | .list _ => True
  | .updates _ ts => 0 < ts
  | .reportedError _ ts => 0 < ts

/-- The throttle record the PM2 toast dedup effect keeps per server id. -/
structure ToastRecord where
  signature : String
  lastToastAt : ℤ
  deriving DecidableEq, Repr

/-- One element of `pm2Issues`: a server with `pm2BadCount > 0`. -/
structure Pm2Issue where
  id : String
  name : String
  count : ℚ
  names : List String
  deriving DecidableEq, Repr

/-- The signature string the effect computes per issue. -/
def issueSignature (issue : Pm2Issue) : String :=
  toString issue.count ++ ":" ++ String.intercalate "|" issue.names

/-- The body of the dedup effect's `forEach` over `pm2Issues`: the issue
notifies (its id is appended to the first component) exactly when no record
exists for it, its signature changed, or the repeat interval elapsed; on
notifying, its record is set to `(signature, nowMs)`. -/
def pm2ToastVisit (nowMs repeatMs : ℤ)
    (acc : List String × List (String × ToastRecord)) (issue : Pm2Issue) :
    List String × List (String × ToastRecord) :=
  let signature := issueSignature issue
  let shouldNotify :=
    match mapGet acc.2 issue.id with
    | none => true
    | some previous =>
      previous.signature ≠ signature ∨ nowMs - previous.lastToastAt ≥ repeatMs
  if shouldNotify then
    (acc.1 ++ [issue.id], mapSet acc.2 issue.id ⟨signature, nowMs⟩)
  else acc

/-- One run of the PM2 toast dedup effect: an empty issue list clears the
record map; otherwise records of inactive ids are removed, then each issue
is processed in order by `pm2ToastVisit`. -/
def pm2ToastStep (issues : List Pm2Issue) (recs : List (String × ToastRecord))
    (nowMs repeatMs : ℤ) : List String × List (String × ToastRecord) :=
  if issues.isEmpty then ([], [])
  else
    let activeIds := issues.map (fun issue => issue.id)
    let pruned := recs.filter (fun kv => kv.1 ∈ activeIds)
    issues.foldl (pm2ToastVisit nowMs repeatMs) ([], pruned)

/-- The notify condition of the effect, read against a fixed record map. -/
def notifyCond (recs : List (String × ToastRecord)) (issue : Pm2Issue)
    (nowMs repeatMs : ℤ) : Bool :=
  match mapGet recs issue.id with
  | none => true
  | some previous =>
    previous.signature ≠ issueSignature issue ∨
      nowMs - previous.lastToastAt ≥ repeatMs

/-- The reconnect backoff floor (`backoff = 1000` at effect start and on
`open`). -/
def BACKOFF_FLOOR : ℚ := 1000

/-- The backoff ceiling (`Math.min(backoff * 1.6, 15_000)`). -/
def BACKOFF_CAP : ℚ := 15000

/-- The two events of the `connect` closure that touch `backoff`. -/
inductive ConnEvent where
  | opened
  | retryScheduled

/-- How one event changes the stored backoff: `ws.onopen` resets it to the
floor; scheduling a reconnect grows it by `1.6`, capped at `15_000`. -/
def backoffStep (b : ℚ) (ev : ConnEvent) : ℚ :=
  match ev with
  | .opened => BACKOFF_FLOOR
  | .retryScheduled => min (b * (8 / 5)) BACKOFF_CAP

/-- The backoff value after a sequence of events, from its initial floor. -/
def runBackoff (evs : List ConnEvent) : ℚ :=
  evs.foldl backoffStep BACKOFF_FLOOR

theorem chunkGo_flatten {α : Type} (fuel : ℕ) :
    ∀ (l : List α) (n : ℕ), l.length ≤ fuel → (chunkGo fuel l n).flatten = l := by
  induction fuel with
  | zero =>
    intro l n hl
    cases l with
    | nil => rfl
    | cons x xs => simp at hl
  | succ fuel ih =>
    intro l n hl
    cases l with
    | nil => rfl
    | cons x xs =>
      have hfuel : ((x :: xs).drop (n + 1)).length ≤ fuel := by
        simp only [List.length_drop, List.length_cons]
        simp only [List.length_cons] at hl
        omega
      show ((x :: xs).take (n + 1) :: chunkGo fuel ((x :: xs).drop (n + 1)) n).flatten = x :: xs
      rw [List.flatten_cons, ih _ n hfuel]
      exact List.take_append_drop (n + 1) (x :: xs)

theorem chunkGo_ne_nil {α : Type} (fuel : ℕ) (x : α) (xs : List α) (n : ℕ) :
    chunkGo (fuel + 1) (x :: xs) n ≠ [] := by
  show (x :: xs).take (n + 1) :: chunkGo fuel ((x :: xs).drop (n + 1)) n ≠ []
  exact List.cons_ne_nil _ _

theorem chunkGo_page_le {α : Type} (fuel : ℕ) :
    ∀ (l : List α) (n : ℕ), ∀ page ∈ chunkGo fuel l n, page.length ≤ n + 1 := by
  induction fuel with
  | zero =>
    intro l n page hp
    cases l with
    | nil => simp [chunkGo] at hp
    | cons x xs => simp [chunkGo] at hp
  | succ fuel ih =>
    intro l n page hp
    cases l with
    | nil => simp [chunkGo] at hp
    | cons x xs =>
      have hp' : page ∈ (x :: xs).take (n + 1) :: chunkGo fuel ((x :: xs).drop (n + 1)) n := hp
      rcases List.mem_cons.mp hp' with h | h
      · subst h; exact List.length_take_le _ _
      · exact ih _ n page h

theorem chunkGo_front_full {α : Type} (fuel : ℕ) :
    ∀ (l : List α) (n : ℕ) (pre post : List (List α)) (page : List α),
      chunkGo fuel l n = pre ++ page :: post → post ≠ [] → page.length = n + 1 := by
  induction fuel with
  | zero =>
    intro l n pre post page h _
    cases l with
    | nil => exact absurd h.symm (List.append_ne_nil_of_right_ne_nil _ (List.cons_ne_nil _ _))
    | cons x xs => exact absurd h.symm (List.append_ne_nil_of_right_ne_nil _ (List.cons_ne_nil _ _))
  | succ fuel ih =>
    intro l n pre post page h hpost
    cases l with
    | nil => exact absurd h.symm (List.append_ne_nil_of_right_ne_nil _ (List.cons_ne_nil _ _))
    | cons x xs =>
      have h' : (x :: xs).take (n + 1) :: chunkGo fuel ((x :: xs).drop (n + 1)) n =
          pre ++ page :: post := h
      cases pre with
      | nil =>
        simp only [List.nil_append] at h'
        have hpage : page = (x :: xs).take (n + 1) := (List.cons.injEq _ _ _ _ ▸ h').1.symm
        have hrest : chunkGo fuel ((x :: xs).drop (n + 1)) n = post :=
          (List.cons.injEq _ _ _ _ ▸ h').2
        have hdrop : (x :: xs).drop (n + 1) ≠ [] := by
          intro hd
          apply hpost
          rw [← hrest, hd]
          cases fuel <;> rfl
        have hlen : n + 1 < (x :: xs).length := by
          by_contra hle
          exact hdrop (List.drop_eq_nil_of_le (by omega))
        rw [hpage, List.length_take]
        omega
      | cons p pre' =>
        have htail : chunkGo fuel ((x :: xs).drop (n + 1)) n = pre' ++ page :: post := by
          have := (List.cons.injEq _ _ _ _ ▸ h').2
          simpa using this
        exact ih _ n pre' post page htail hpost

/-- C8: for every list of entries and every positive `pageSize`, `chunk`
partitions the list in its current order into consecutive pages of
`pageSize` elements (every page before the last has exactly `pageSize`
elements, the last has at most `pageSize`) and always yields at least one
page; a list of 7 entries with `pageSize = 3` yields pages of sizes
`[3, 3, 1]`, and an empty list yields exactly one empty page. -/
theorem chunk_partition_spec :
    (∀ (α : Type) (items : List α) (size : ℕ), 0 < size →
      ((chunk items size).flatten = items ∧
       1 ≤ (chunk items size).length ∧
       (∀ page ∈ chunk items size, page.length ≤ size) ∧
       (∀ (pre post : List (List α)) (page : List α),
         chunk items size = pre ++ page :: post → post ≠ [] →
         page.length = size))) ∧
    (chunk [1, 2, 3, 4, 5, 6, 7] 3).map (fun page => page.length) = [3, 3, 1] ∧
    chunk ([] : List ℕ) 3 = [[]] := by
  refine ⟨?_, by decide, by decide⟩
  intro α items size hsize
  have hne : ¬ size = 0 := by omega
  have hsub : size - 1 + 1 = size := by omega
  cases items with
  | nil =>
    have hch : chunk ([] : List α) size = [[]] := by
      simp [chunk, hne, chunkGo]
    refine ⟨by simp [hch], by simp [hch], ?_, ?_⟩
    · intro page hp
      rw [hch] at hp
      rcases List.mem_singleton.mp hp with rfl
      simp
    · intro pre post page h hpost
      rw [hch] at h
      cases pre with
      | nil =>
        injection h with h1 h2
        exact absurd h2.symm hpost
      | cons q pre' =>
        injection h with h1 h2
        exact absurd h2.symm (List.append_ne_nil_of_right_ne_nil _ (List.cons_ne_nil _ _))
  | cons x xs =>
    have hch : chunk (x :: xs) size = chunkGo (xs.length + 1) (x :: xs) (size - 1) := by
      have hpages := chunkGo_ne_nil xs.length x xs (size - 1)
      simp only [chunk, hne, if_false, List.length_cons]
      rw [if_neg]
      simp [List.isEmpty_iff, hpages]
    refine ⟨?_, ?_, ?_, ?_⟩
    · rw [hch]
      exact chunkGo_flatten _ _ _ (by simp)
    · rw [hch]
      have := chunkGo_ne_nil xs.length x xs (size - 1)
      have := List.length_pos.mpr this
      omega
    · intro page hp
      rw [hch] at hp
      have := chunkGo_page_le (xs.length + 1) (x :: xs) (size - 1) page hp
      omega
    · intro pre post page h hpost
      rw [hch] at h
      have := chunkGo_front_full (xs.length + 1) (x :: xs) (size - 1) pre post page h hpost
      omega

/-- Witness for C8 at a concrete input. -/
theorem chunk_partition_spec_witness :
    (0 : ℕ) < 3 ∧
    (chunk ["a", "b", "c", "d"] 3).flatten = ["a", "b", "c", "d"] ∧
    1 ≤ (chunk ["a", "b", "c", "d"] 3).length :=
  ⟨by decide,
   (chunk_partition_spec.1 String ["a", "b", "c", "d"] 3 (by decide)).1,
   (chunk_partition_spec.1 String ["a", "b", "c", "d"] 3 (by decide)).2.1⟩

theorem ageExceeds_some_ne (now lu threshold : ℤ) (h : ¬ lu = 0) :
    ageExceeds (ageOf now (some lu)) threshold = decide (now - lu > threshold) := by
  simp [ageOf, ageExceeds, h]

theorem ageExceeds_of_gt (now lu threshold : ℤ) (h : now - lu > threshold) :
    ageExceeds (ageOf now (some lu)) threshold = true := by
  by_cases h0 : lu = 0 <;> simp [ageOf, ageExceeds, h0, h]

/-- C3: `getStatus` evaluates its six states in the fixed precedence
disabled > idle > down > stale > warn > ok: `disabled` iff `enabled` is
false (overriding everything, e.g. a disabled server with `stats.error` set
still classifies as disabled); `idle` iff no stats were ever recorded;
`down` iff `stats.error` is set (truthy); `stale` whenever
`now - lastUpdate > 60000` ms (and, for a real positive timestamp, exactly
then); once those are ruled out, `warn` iff cpu > 85 or memory-used/total
> 90% or disk-used/total > 92%, and `ok` otherwise. -/
theorem getStatus_precedence (server : ServerEntry) (now : ℤ) :
    ((getStatus server now).key = .disabled ↔ server.enabled = false) ∧
    (server.enabled = true →
      ((getStatus server now).key = .idle ↔ server.stats = none)) ∧
    (server.enabled = true → ∀ stats, server.stats = some stats →
      ((getStatus server now).key = .down ↔ truthyStr stats.error = true)) ∧
    (server.enabled = true → ∀ stats, server.stats = some stats →
      truthyStr stats.error = false →
      ∀ lu, server.lastUpdate = some lu → now - lu > 60000 →
      (getStatus server now).key = .stale) ∧
    (server.enabled = true → ∀ stats, server.stats = some stats →
      truthyStr stats.error = false →
      ∀ lu, server.lastUpdate = some lu → 0 < lu →
      ((getStatus server now).key = .stale ↔ now - lu > 60000)) ∧
    (server.enabled = true → ∀ stats, server.stats = some stats →
      truthyStr stats.error = false →
      ageExceeds (ageOf now server.lastUpdate) 60000 = false →
      (((getStatus server now).key = .warn ↔
        (stats.cpuUsage.getD 0 > 85 ∨
         (percent stats.memoryUsed stats.memoryTotal).getD 0 > 90 ∨
         (percent stats.diskUsed stats.diskTotal).getD 0 > 92)) ∧
       ((getStatus server now).key = .ok ↔
        ¬(stats.cpuUsage.getD 0 > 85 ∨
          (percent stats.memoryUsed stats.memoryTotal).getD 0 > 90 ∨
          (percent stats.diskUsed stats.diskTotal).getD 0 > 92)))) := by
  cases hE : server.enabled with
  | false =>
    refine ⟨by simp [getStatus, hE], ?_, ?_, ?_, ?_, ?_⟩ <;> simp [hE]
  | true =>
    cases hS : server.stats with
    | none =>
      refine ⟨by simp [getStatus, hE, hS], by simp [getStatus, hE, hS],
        ?_, ?_, ?_, ?_⟩ <;> intro _ stats hstats <;> simp [hS] at hstats
    | some stats =>
      by_cases hT : truthyStr stats.error = true
      · have hkey : getStatus server now = ⟨.down, "Error"⟩ := by
          simp [getStatus, hE, hS, hT]
        refine ⟨by simp [hkey, hE], by simp [hkey, hS], ?_, ?_, ?_, ?_⟩ <;>
          intro _ stats' hstats' <;>
          (try intro hT') <;>
          (have heq : stats' = stats := by injection hstats' with h; exact h.symm) <;>
          subst heq <;>
          simp_all [hkey]
      · have hTf : truthyStr stats.error = false := by simpa using hT
        by_cases hA : ageExceeds (ageOf now server.lastUpdate) 60000 = true
        · have hkey : getStatus server now = ⟨.stale, "Stale"⟩ := by
            simp [getStatus, hE, hS, hTf, hA]
          refine ⟨by simp [hkey, hE], by simp [hkey, hS], ?_, ?_, ?_, ?_⟩
          · intro _ stats' hstats'
            have heq : stats' = stats := by injection hstats' with h; exact h.symm
            subst heq
            simp [hkey, hTf]
          · intro _ stats' hstats' _ lu hlu _
            simp [hkey]
          · intro _ stats' hstats' _ lu hlu hpos
            rw [hlu] at hA
            rw [ageExceeds_some_ne now lu 60000 (by omega)] at hA
            simp only [decide_eq_true_eq] at hA
            simp [hkey, hA]
          · intro _ stats' hstats' _ hAf
            rw [hAf] at hA
            exact absurd hA (by simp)
        · have hAf : ageExceeds (ageOf now server.lastUpdate) 60000 = false := by
            simpa using hA
          by_cases hW : stats.cpuUsage.getD 0 > 85 ∨
              (percent stats.memoryUsed stats.memoryTotal).getD 0 > 90 ∨
              (percent stats.diskUsed stats.diskTotal).getD 0 > 92
          · have hkey : getStatus server now = ⟨.warn, "Hot"⟩ := by
              simp only [getStatus, hE, Bool.not_true, if_false, hS, hTf,
                Bool.false_eq_true, hAf]
              simp [hW]
            refine ⟨by simp [hkey, hE], by simp [hkey, hS], ?_, ?_, ?_, ?_⟩
            · intro _ stats' hstats'
              have heq : stats' = stats := by injection hstats' with h; exact h.symm
              subst heq
              simp [hkey, hTf]
            · intro _ stats' hstats' _ lu hlu hgt
              rw [hlu] at hAf
              rw [ageExceeds_of_gt now lu 60000 hgt] at hAf
              exact absurd hAf (by simp)
            · intro _ stats' hstats' _ lu hlu hpos
              rw [hlu] at hAf
              rw [ageExceeds_some_ne now lu 60000 (by omega)] at hAf
              simp only [decide_eq_false_iff_not] at hAf
              simp [hkey, hAf]
            · intro _ stats' hstats' _ _
              have heq : stats' = stats := by injection hstats' with h; exact h.symm
              subst heq
              simp [hkey, hW]
          · have hkey : getStatus server now = ⟨.ok, "Nominal"⟩ := by
              simp only [getStatus, hE, Bool.not_true, if_false, hS, hTf,
                Bool.false_eq_true, hAf]
              simp [hW]
            refine ⟨by simp [hkey, hE], by simp [hkey, hS], ?_, ?_, ?_, ?_⟩
            · intro _ stats' hstats'
              have heq : stats' = stats := by injection hstats' with h; exact h.symm
              subst heq
              simp [hkey, hTf]
            · intro _ stats' hstats' _ lu hlu hgt
              rw [hlu] at hAf
              rw [ageExceeds_of_gt now lu 60000 hgt] at hAf
              exact absurd hAf (by simp)
            · intro _ stats' hstats' _ lu hlu hpos
              rw [hlu] at hAf
              rw [ageExceeds_some_ne now lu 60000 (by omega)] at hAf
              simp only [decide_eq_false_iff_not] at hAf
              simp [hkey, hAf]
            · intro _ stats' hstats' _ _
              have heq : stats' = stats := by injection hstats' with h; exact h.symm
              subst heq
              simp [hkey, hW]

/-- A disabled entry whose stats carry an error, for the C3 witness. -/
def disabledErrorEntry : ServerEntry :=
  { id := "a", name := "a", host := "h", enabled := false, tags := [],
    stats := some { error := some "boom" }, lastUpdate := some 5 }

/-- An enabled entry that never received stats, for the C4 witness. -/
def idleEntry : ServerEntry :=
  { id := "a", name := "a", host := "h", enabled := true, tags := [],
    stats := none, lastUpdate := none }

/-- Witness for C3: a disabled server whose stats carry an error still
classifies as disabled. -/
theorem getStatus_precedence_witness :
    (getStatus disabledErrorEntry 100000).key = .disabled :=
  (getStatus_precedence disabledErrorEntry 100000).1.mpr rfl

/-- C4: `shouldAlert` is true iff the entry is enabled and its recorded
stats satisfy any of: a truthy error; staleness age beyond the configurable
ceiling; cpu, memory percentage, or disk percentage at-or-above its
configurable alert threshold; or `pm2BadCount > 0` — and an enabled entry
that never received stats does not alert. -/
theorem shouldAlert_spec (cfg : AlertConfig) (server : ServerEntry) (now : ℤ) :
    (shouldAlert cfg server now = true ↔
      (server.enabled = true ∧ ∃ stats, server.stats = some stats ∧
        (truthyStr stats.error = true ∨
         ageExceeds (ageOf now server.lastUpdate) cfg.alertStaleMs = true ∨
         stats.cpuUsage.getD 0 ≥ cfg.alertCpu ∨
         (percent stats.memoryUsed stats.memoryTotal).getD 0 ≥ cfg.alertMemory ∨
         (percent stats.diskUsed stats.diskTotal).getD 0 ≥ cfg.alertDisk ∨
         stats.pm2BadCount.getD 0 > 0))) ∧
    (server.enabled = true → server.stats = none →
      shouldAlert cfg server now = false) := by
  cases hE : server.enabled with
  | false => exact ⟨by simp [shouldAlert, hE], by simp [hE]⟩
  | true =>
    cases hS : server.stats with
    | none => exact ⟨by simp [shouldAlert, hE, hS], fun _ _ => by simp [shouldAlert, hE, hS]⟩
    | some stats =>
      refine ⟨?_, fun _ h => by simp [hS] at h⟩
      by_cases hT : truthyStr stats.error = true
      · simp [shouldAlert, hE, hS, hT]
      · have hTf : truthyStr stats.error = false := by simpa using hT
        by_cases hA : ageExceeds (ageOf now server.lastUpdate) cfg.alertStaleMs = true
        · simp [shouldAlert, hE, hS, hTf, hA]
        · have hAf : ageExceeds (ageOf now server.lastUpdate) cfg.alertStaleMs = false := by
            simpa using hA
          simp [shouldAlert, hE, hS, hTf, hAf]

/-- Witness for C4: an enabled entry with no stats does not alert. -/
theorem shouldAlert_spec_witness :
    shouldAlert {} idleEntry 12345 = false :=
  (shouldAlert_spec {} idleEntry 12345).2 rfl rfl

theorem mapGet_eq_find?_of_nodup {β : Type} (pairs : List (String × β)) (k : String)
    (h : (pairs.map (fun kv => kv.1)).Nodup) :
    mapGet pairs k = (pairs.find? (fun kv => kv.1 = k)).map (fun kv => kv.2) := by
  induction pairs with
  | nil => rfl
  | cons p ps ih =>
    simp only [List.map_cons, List.nodup_cons] at h
    unfold mapGet
    rw [List.reverse_cons, List.find?_append]
    by_cases hpk : p.1 = k
    · have hnone : ps.reverse.find? (fun kv => decide (kv.1 = k)) = none := by
        rw [List.find?_eq_none]
        intro kv hkv
        simp only [decide_eq_true_eq]
        intro hk
        have hmem : kv.1 ∈ ps.map (fun kv => kv.1) :=
          List.mem_map_of_mem _ (List.mem_reverse.mp hkv)
        rw [hk, ← hpk] at hmem
        exact h.1 hmem
      rw [hnone, Option.none_or]
      rw [List.find?_cons_of_pos _ (by simp [hpk]),
        List.find?_cons_of_pos _ (by simp [hpk])]
    · have hp1 : ([p].find? (fun kv => decide (kv.1 = k))) = none := by
        rw [List.find?_eq_none]
        intro kv hkv
        rw [List.mem_singleton.mp hkv]
        simp [hpk]
      rw [hp1, Option.or_none, List.find?_cons_of_neg _ (by simp [hpk])]
      exact ih h.2

theorem mapGet_entries (prev : List ServerEntry) (sid : String)
    (h : (prev.map (fun e => e.id)).Nodup) :
    mapGet (prev.map (fun e => (e.id, e))) sid = prev.find? (fun e => e.id = sid) := by
  have hkeys : ((prev.map (fun e => (e.id, e))).map (fun kv => kv.1)).Nodup := by
    rw [List.map_map]
    exact h
  rw [mapGet_eq_find?_of_nodup _ sid hkeys, List.find?_map]
  cases hfind : prev.find? (fun e => e.id = sid) with
  | none =>
    have : prev.find? ((fun kv : String × ServerEntry => decide (kv.1 = sid)) ∘
        (fun e => (e.id, e))) = none := hfind
    rw [this]
    rfl
  | some e =>
    have : prev.find? ((fun kv : String × ServerEntry => decide (kv.1 = sid)) ∘
        (fun e => (e.id, e))) = some e := hfind
    rw [this]
    rfl

/-- C2: a non-empty list snapshot wholesale replaces the registry membership
with the incoming items in order (entries absent from the snapshot are
dropped); each surviving entry, matched by id, carries forward its
previously known `stats` and `lastUpdate`; and an empty snapshot leaves the
registry completely unchanged. -/
theorem applyServerList_spec :
    (∀ prev : List ServerEntry, applyServerList [] prev = prev) ∧
    (∀ (incoming : List IncomingServerListItem) (prev : List ServerEntry),
      incoming ≠ [] → (prev.map (fun e => e.id)).Nodup →
      ((applyServerList incoming prev).map (fun e => e.id) =
         incoming.map (fun item => item.server_id) ∧
       (applyServerList incoming prev).length = incoming.length ∧
       ∀ (i : ℕ) (hi : i < incoming.length)
         (hr : i < (applyServerList incoming prev).length),
         ((applyServerList incoming prev).get ⟨i, hr⟩).stats =
           (prev.find? (fun e => e.id = (incoming.get ⟨i, hi⟩).server_id)).bind
             (fun e => e.stats) ∧
         ((applyServerList incoming prev).get ⟨i, hr⟩).lastUpdate =
           (prev.find? (fun e => e.id = (incoming.get ⟨i, hi⟩).server_id)).bind
             (fun e => e.lastUpdate))) := by
  constructor
  · intro prev; rfl
  · intro incoming prev hne hnodup
    have hemp : incoming.isEmpty = false := by
      cases incoming with
      | nil => exact absurd rfl hne
      | cons _ _ => rfl
    unfold applyServerList
    rw [if_neg (by rw [hemp]; exact Bool.false_ne_true)]
    refine ⟨?_, ?_, ?_⟩
    · rw [List.map_map]
      rfl
    · rw [List.length_map]
    · intro i hi hr
      simp only [List.get_eq_getElem, List.getElem_map]
      rw [← mapGet_entries prev _ hnodup]
      exact ⟨rfl, rfl⟩

/-- A previous registry with one entry `"a"` holding known stats, for the
C2 witness. -/
def prevRegistry : List ServerEntry :=
  [{ id := "a", name := "A", host := "h", enabled := true, tags := [],
     stats := some { cpuUsage := some 40 }, lastUpdate := some 11 }]

/-- A two-item snapshot `["a", "b"]`, for the C2 witness. -/
def snapshotItems : List IncomingServerListItem :=
  [{ server_id := "a" }, { server_id := "b" }]

/-- Witness for C2: the snapshot replaces membership, carries entry `"a"`'s
stats forward, and an empty snapshot is a no-op. -/
theorem applyServerList_spec_witness :
    (applyServerList snapshotItems prevRegistry).map (fun e => e.id) = ["a", "b"] ∧
    ((applyServerList snapshotItems prevRegistry).get ⟨0, by decide⟩).stats =
      some { cpuUsage := some 40 } ∧
    applyServerList [] prevRegistry = prevRegistry := by
  have h := applyServerList_spec.2 snapshotItems prevRegistry (by decide) (by decide)
  refine ⟨?_, ?_, applyServerList_spec.1 prevRegistry⟩
  · rw [h.1]
    decide
  · exact ((h.2.2 0 (by decide) (by decide)).1).trans (by decide)

theorem applyServerUpdates_length (updates : List IncomingServerUpdate)
    (timestamp : ℤ) (prev : List ServerEntry) :
    (applyServerUpdates updates timestamp prev).length = prev.length := by
  unfold applyServerUpdates
  split
  · rfl
  · rw [List.length_map]

theorem applyServerUpdates_getElem (updates : List IncomingServerUpdate)
    (timestamp : ℤ) (prev : List ServerEntry) (i : ℕ) (hi : i < prev.length)
    (hr : i < (applyServerUpdates updates timestamp prev).length) :
    (applyServerUpdates updates timestamp prev).get ⟨i, hr⟩ =
      (match mapGet (updates.map (fun item => (item.server_id, item)))
          ((prev.get ⟨i, hi⟩).id) with
       | none => prev.get ⟨i, hi⟩
       | some payload =>
         { prev.get ⟨i, hi⟩ with
           stats := some (mergeStats payload (prev.get ⟨i, hi⟩).stats)
           lastUpdate := some timestamp }) := by
  by_cases hemp : updates.isEmpty
  · have hupd : updates = [] := List.isEmpty_iff.mp hemp
    subst hupd
    rfl
  · have hemp' : updates.isEmpty = false := by simpa using hemp
    have hlist : applyServerUpdates updates timestamp prev =
        prev.map (fun item =>
          match mapGet (updates.map (fun item => (item.server_id, item))) item.id with
          | none => item
          | some payload =>
            { item with
              stats := some (mergeStats payload item.stats)
              lastUpdate := some timestamp }) := by
      unfold applyServerUpdates
      rw [if_neg (by rw [hemp']; exact Bool.false_ne_true)]
    simp only [List.get_eq_getElem]
    simp only [hlist, List.getElem_map]

/-- C1 (amended): under `applyServerUpdates`, a registry entry not named by
any update is unchanged, and for a matched entry every metric field of its
stats merges by last-non-null-wins — an update that omits the field leaves
the current value, a new non-null value overwrites it — while `error` alone
is unconditionally replaced by the update's error value (cleared to null
when the update omits it). -/
theorem applyServerUpdates_merge_spec (updates : List IncomingServerUpdate)
    (timestamp : ℤ) (prev : List ServerEntry) (i : ℕ) (hi : i < prev.length)
    (hr : i < (applyServerUpdates updates timestamp prev).length) :
    (mapGet (updates.map (fun item => (item.server_id, item)))
        ((prev.get ⟨i, hi⟩).id) = none →
      (applyServerUpdates updates timestamp prev).get ⟨i, hr⟩ = prev.get ⟨i, hi⟩) ∧
    (∀ payload,
      mapGet (updates.map (fun item => (item.server_id, item)))
        ((prev.get ⟨i, hi⟩).id) = some payload →
      (let old := prev.get ⟨i, hi⟩
       let merged := (applyServerUpdates updates timestamp prev).get ⟨i, hr⟩
       merged.stats.bind (fun s => s.error) = payload.error ∧
       merged.stats.bind (fun s => s.cpuUsage) =
         payload.cpuUsage.orElse (fun _ => old.stats.bind (fun s => s.cpuUsage)) ∧
       merged.stats.bind (fun s => s.memoryTotal) =
         payload.memoryTotal.orElse (fun _ => old.stats.bind (fun s => s.memoryTotal)) ∧
       merged.stats.bind (fun s => s.memoryUsed) =
         payload.memoryUsed.orElse (fun _ => old.stats.bind (fun s => s.memoryUsed)) ∧
       merged.stats.bind (fun s => s.diskTotal) =
         payload.diskTotal.orElse (fun _ => old.stats.bind (fun s => s.diskTotal)) ∧
       merged.stats.bind (fun s => s.diskUsed) =
         payload.diskUsed.orElse (fun _ => old.stats.bind (fun s => s.diskUsed)) ∧
       merged.stats.bind (fun s => s.uptime) =
         payload.uptime.orElse (fun _ => old.stats.bind (fun s => s.uptime)) ∧
       merged.stats.bind (fun s => s.pm2Procs) =
         payload.pm2Procs.orElse (fun _ => old.stats.bind (fun s => s.pm2Procs)) ∧
       merged.stats.bind (fun s => s.pm2Mem) =
         payload.pm2Mem.orElse (fun _ => old.stats.bind (fun s => s.pm2Mem)) ∧
       merged.stats.bind (fun s => s.pm2BadCount) =
         payload.pm2BadCount.orElse (fun _ => old.stats.bind (fun s => s.pm2BadCount)) ∧
       merged.stats.bind (fun s => s.pm2BadNames) =
         payload.pm2BadNames.orElse (fun _ => old.stats.bind (fun s => s.pm2BadNames)) ∧
       merged.stats.bind (fun s => s.supervisorTotal) =
         payload.supervisorTotal.orElse (fun _ => old.stats.bind (fun s => s.supervisorTotal)) ∧
       merged.stats.bind (fun s => s.supervisorRunning) =
         payload.supervisorRunning.orElse (fun _ => old.stats.bind (fun s => s.supervisorRunning)) ∧
       merged.lastUpdate = some timestamp)) := by
  constructor
  · intro hnone
    rw [applyServerUpdates_getElem updates timestamp prev i hi hr, hnone]
  · intro payload hsome
    rw [applyServerUpdates_getElem updates timestamp prev i hi hr, hsome]
    exact ⟨rfl, rfl, rfl, rfl, rfl, rfl, rfl, rfl, rfl, rfl, rfl, rfl, rfl, rfl⟩

/-- An entry holding a recorded error and a cpu reading, for the C1
counterexample. -/
def erroredEntry : ServerEntry :=
  { id := "a", name := "A", host := "h", enabled := true, tags := [],
    stats := some { cpuUsage := some 40, error := some "boom" },
    lastUpdate := some 1 }

/-- The parsed form of a push frame `{server_id: "a"}` that carries no
value for any stats field. -/
def emptyUpdate : IncomingServerUpdate := { server_id := "a" }

/-- Counterexample to C1 as stated: the update carries no value for `error`
(the raw frame omits it and the parser yields null), yet merging it clears
the entry's recorded error from `"boom"` to null — so `error` is not
monotone under merge. -/
theorem applyServerUpdates_error_not_monotone :
    parseServerUpdate (JValue.jobj [("server_id", JValue.jstr "a")]) =
      some emptyUpdate ∧
    emptyUpdate.error = none ∧
    [erroredEntry].map (fun e => e.stats.bind (fun s => s.error)) = [some "boom"] ∧
    (applyServerUpdates [emptyUpdate] 5 [erroredEntry]).map
      (fun e => e.stats.bind (fun s => s.error)) = [none] := by
  refine ⟨by decide, by decide, by decide, by decide⟩

/-- An entry holding only a cpu reading, for the C1 witness scenario. -/
def cpuOnlyEntry : ServerEntry :=
  { id := "a", name := "A", host := "h", enabled := true, tags := [],
    stats := some { cpuUsage := some 40 }, lastUpdate := some 1 }

/-- An update carrying only memory fields, for the C1 witness scenario. -/
def memoryOnlyUpdate : IncomingServerUpdate :=
  { server_id := "a", memoryUsed := some 100, memoryTotal := some 200 }

/-- Witness for C1 (amended), on the spec's scenario: entry
`{id:"a", cpuUsage:40}` merged with update `{memoryUsed:100,
memoryTotal:200}` keeps `cpuUsage:40` and gains `memoryUsed:100`. -/
theorem applyServerUpdates_merge_spec_witness :
    ((applyServerUpdates [memoryOnlyUpdate] 7 [cpuOnlyEntry]).get
        ⟨0, by decide⟩).stats.bind (fun s => s.cpuUsage) = some 40 ∧
    ((applyServerUpdates [memoryOnlyUpdate] 7 [cpuOnlyEntry]).get
        ⟨0, by decide⟩).stats.bind (fun s => s.memoryUsed) = some 100 := by
  have h := (applyServerUpdates_merge_spec [memoryOnlyUpdate] 7 [cpuOnlyEntry] 0
    (by decide) (by decide)).2 memoryOnlyUpdate (by decide)
  exact ⟨(h.2.1).trans (by decide), (h.2.2.2.1).trans (by decide)⟩

/-- C9 (amended): `applyServerUpdates` and `applyServerError` never change
the registry's id sequence, and `applyServerList` yields pairwise-distinct
ids whenever the incoming items' `server_id`s are pairwise distinct (and the
previous registry's ids are, for the empty-snapshot no-op); an input that
repeats a `server_id`, however, produces one registry entry per occurrence. -/
theorem registry_ids_spec :
    (∀ (incoming : List IncomingServerListItem) (prev : List ServerEntry),
      (incoming.map (fun item => item.server_id)).Nodup →
      (prev.map (fun e => e.id)).Nodup →
      ((applyServerList incoming prev).map (fun e => e.id)).Nodup) ∧
    (∀ (updates : List IncomingServerUpdate) (timestamp : ℤ)
       (prev : List ServerEntry),
      (applyServerUpdates updates timestamp prev).map (fun e => e.id) =
        prev.map (fun e => e.id)) ∧
    (∀ (payload : IncomingServerError) (timestamp : ℤ)
       (prev : List ServerEntry),
      (applyServerError payload timestamp prev).map (fun e => e.id) =
        prev.map (fun e => e.id)) := by
  refine ⟨?_, ?_, ?_⟩
  · intro incoming prev hinc hprev
    cases incoming with
    | nil => exact hprev
    | cons x xs =>
      have hemp : (x :: xs).isEmpty = false := rfl
      unfold applyServerList
      rw [if_neg (by rw [hemp]; exact Bool.false_ne_true)]
      rw [List.map_map]
      exact hinc
  · intro updates timestamp prev
    unfold applyServerUpdates
    split
    · rfl
    · rw [List.map_map]
      apply List.map_congr_left
      intro item _
      cases hmg : mapGet (updates.map (fun item => (item.server_id, item))) item.id with
      | none => simp [hmg]
      | some payload => simp [hmg]
  · intro payload timestamp prev
    unfold applyServerError
    rw [List.map_map]
    apply List.map_congr_left
    intro item _
    by_cases hid : item.id = payload.server_id <;> simp [hid]

/-- Witness for C9 (amended) at a concrete snapshot and registry. -/
theorem registry_ids_spec_witness :
    ((applyServerList snapshotItems prevRegistry).map (fun e => e.id)).Nodup :=
  registry_ids_spec.1 snapshotItems prevRegistry (by decide) (by decide)

/-- A raw push list frame whose items repeat `server_id` `"a"`. -/
def dupListRaw : JValue :=
  .jarr [.jobj [("server_id", .jstr "a")], .jobj [("server_id", .jstr "a")]]

/-- Counterexample to C9 as stated: `parseServerList` keeps both occurrences
of `server_id` `"a"`, and `applyServerList` on the (trivially distinct)
empty registry then yields a registry whose ids are not pairwise
distinct. -/
theorem registry_ids_counterexample :
    (parseServerList dupListRaw).map (fun item => item.server_id) = ["a", "a"] ∧
    (([] : List ServerEntry).map (fun e => e.id)).Nodup ∧
    (applyServerList (parseServerList dupListRaw) []).map (fun e => e.id) =
      ["a", "a"] ∧
    ¬ ((applyServerList (parseServerList dupListRaw) []).map
        (fun e => e.id)).Nodup := by
  refine ⟨by decide, by decide, by decide, by decide⟩

/-- The invariant behind C10: an entry with recorded stats carries a
positive `lastUpdate` timestamp. -/
def statsImpliesUpdate (reg : List ServerEntry) : Prop :=
  ∀ e ∈ reg, e.stats.isSome = true → ∃ lu, e.lastUpdate = some lu ∧ 0 < lu

theorem mapGet_entries_mem (prev : List ServerEntry) (sid : String)
    (old : ServerEntry)
    (h : mapGet (prev.map (fun e => (e.id, e))) sid = some old) : old ∈ prev := by
  unfold mapGet at h
  cases hfind : ((prev.map (fun e => (e.id, e))).reverse.find?
      (fun kv => kv.1 = sid)) with
  | none => rw [hfind] at h; exact absurd h (by simp)
  | some kv =>
    rw [hfind] at h
    have hkv : kv ∈ (prev.map (fun e => (e.id, e))).reverse :=
      List.mem_of_find?_eq_some hfind
    rw [List.mem_reverse] at hkv
    obtain ⟨e, he, hkve⟩ := List.mem_map.mp hkv
    have h2 : kv.2 = old := by simpa using h
    rw [← h2, ← hkve]
    exact he

theorem applyServerList_eq_map (x : IncomingServerListItem)
    (xs : List IncomingServerListItem) (prev : List ServerEntry) :
    applyServerList (x :: xs) prev = (x :: xs).map (fun item =>
      { id := item.server_id
        name := jsOrStr item.server_name (jsOrStr item.host item.server_id)
        host := jsOrStr item.host "--"
        enabled := item.enabled
        tags := item.tags
        stats := (mapGet (prev.map (fun e => (e.id, e))) item.server_id).bind
          (fun e => e.stats)
        lastUpdate := (mapGet (prev.map (fun e => (e.id, e))) item.server_id).bind
          (fun e => e.lastUpdate) }) := rfl

theorem applyServerList_stats_update (incoming : List IncomingServerListItem)
    (prev : List ServerEntry) (hprev : statsImpliesUpdate prev) :
    statsImpliesUpdate (applyServerList incoming prev) := by
  cases incoming with
  | nil => exact hprev
  | cons x xs =>
    intro e he hstats
    rw [applyServerList_eq_map] at he
    obtain ⟨item, hitem, hfe⟩ := List.mem_map.mp he
    subst hfe
    cases hmg : mapGet (prev.map (fun e => (e.id, e))) item.server_id with
    | none =>
      rw [hmg] at hstats
      exact absurd hstats (by simp)
    | some old =>
      rw [hmg] at hstats
      have hstats' : old.stats.isSome = true := by simpa using hstats
      have hold : old ∈ prev := mapGet_entries_mem prev item.server_id old hmg
      obtain ⟨lu, hlu, hpos⟩ := hprev old hold hstats'
      exact ⟨lu, hlu, hpos⟩

theorem applyServerUpdates_mem (updates : List IncomingServerUpdate)
    (timestamp : ℤ) (prev : List ServerEntry) (e : ServerEntry)
    (he : e ∈ applyServerUpdates updates timestamp prev) :
    e ∈ prev ∨ ∃ payload item, item ∈ prev ∧
      e = { item with
        stats := some (mergeStats payload item.stats)
        lastUpdate := some timestamp } := by
  unfold applyServerUpdates at he
  split at he
  · exact Or.inl he
  · obtain ⟨item, hitem, hfe⟩ := List.mem_map.mp he
    cases hmg : mapGet (updates.map (fun item => (item.server_id, item)))
        item.id with
    | none =>
      rw [hmg] at hfe
      exact Or.inl (hfe ▸ hitem)
    | some payload =>
      rw [hmg] at hfe
      exact Or.inr ⟨payload, item, hitem, hfe.symm⟩

theorem applyServerUpdates_stats_update (updates : List IncomingServerUpdate)
    (timestamp : ℤ) (prev : List ServerEntry) (hts : 0 < timestamp)
    (hprev : statsImpliesUpdate prev) :
    statsImpliesUpdate (applyServerUpdates updates timestamp prev) := by
  intro e he hstats
  rcases applyServerUpdates_mem updates timestamp prev e he with h | ⟨payload, item, _, rfl⟩
  · exact hprev e h hstats
  · exact ⟨timestamp, rfl, hts⟩

theorem applyServerError_mem (payload : IncomingServerError) (timestamp : ℤ)
    (prev : List ServerEntry) (e : ServerEntry)
    (he : e ∈ applyServerError payload timestamp prev) :
    e ∈ prev ∨ ∃ item, item ∈ prev ∧
      e = { item with
        stats := some { item.stats.getD {} with
          error := some (jsOrStr payload.error "Server error") }
        lastUpdate := some timestamp } := by
  unfold applyServerError at he
  obtain ⟨item, hitem, hfe⟩ := List.mem_map.mp he
  by_cases hid : item.id = payload.server_id
  · rw [if_pos hid] at hfe
    exact Or.inr ⟨item, hitem, hfe.symm⟩
  · rw [if_neg hid] at hfe
    exact Or.inl (hfe ▸ hitem)

theorem applyServerError_stats_update (payload : IncomingServerError)
    (timestamp : ℤ) (prev : List ServerEntry) (hts : 0 < timestamp)
    (hprev : statsImpliesUpdate prev) :
    statsImpliesUpdate (applyServerError payload timestamp prev) := by
  intro e he hstats
  rcases applyServerError_mem payload timestamp prev e he with h | ⟨item, _, rfl⟩
  · exact hprev e h hstats
  · exact ⟨timestamp, rfl, hts⟩

instance opTimestampPosDecidable (op : RegistryOp) :
    Decidable (opTimestampPos op) :=
  match op with
  | .list _ => isTrue trivial
  | .updates _ ts => inferInstanceAs (Decidable (0 < ts))
  | .reportedError _ ts => inferInstanceAs (Decidable (0 < ts))

theorem applyOp_stats_update (reg : List ServerEntry) (op : RegistryOp)
    (hop : opTimestampPos op) (hreg : statsImpliesUpdate reg) :
    statsImpliesUpdate (applyOp reg op) := by
  cases op with
  | list incoming => exact applyServerList_stats_update incoming reg hreg
  | updates batch ts => exact applyServerUpdates_stats_update batch ts reg hop hreg
  | reportedError payload ts => exact applyServerError_stats_update payload ts reg hop hreg

/-- C10: starting from the empty registry, after any sequence of list
snapshots, stats merges and error reports whose `Date.now()` stamps are
positive, every entry with recorded stats also has a defined (positive)
`lastUpdate`, so the staleness age used by `getStatus` / `shouldAlert` is
the real `now - lastUpdate`, never the infinite-age fallback taken when
`lastUpdate` is missing. -/
theorem runOps_stats_lastUpdate (ops : List RegistryOp)
    (hts : ∀ op ∈ ops, opTimestampPos op) :
    ∀ e ∈ runOps ops, e.stats.isSome = true →
      e.lastUpdate.isSome = true ∧
      ∀ now : ℤ, ageOf now e.lastUpdate = some (now - e.lastUpdate.getD 0) := by
  have hfold : ∀ (rest : List RegistryOp) (reg : List ServerEntry),
      statsImpliesUpdate reg → (∀ op ∈ rest, opTimestampPos op) →
      statsImpliesUpdate (rest.foldl applyOp reg) := by
    intro rest
    induction rest with
    | nil => intro reg h _; exact h
    | cons op ops ih =>
      intro reg hreg hops
      exact ih _ (applyOp_stats_update reg op (hops op (List.mem_cons_self op ops)) hreg)
        (fun o ho => hops o (List.mem_cons_of_mem _ ho))
  intro e he hstats
  obtain ⟨lu, hlu, hpos⟩ :=
    hfold ops [] (fun e' he' _ => absurd he' (List.not_mem_nil e')) hts e he hstats
  refine ⟨by rw [hlu]; rfl, ?_⟩
  intro now
  rw [hlu]
  show (if lu = 0 then none else some (now - lu)) = some (now - (some lu).getD 0)
  rw [if_neg (by omega)]
  rfl

/-- A list snapshot followed by a stats merge at time 5, for the C10
witness. -/
def demoOps : List RegistryOp :=
  [RegistryOp.list [{ server_id := "a" }],
   RegistryOp.updates [{ server_id := "a", cpuUsage := some 40 }] 5]

/-- Witness for C10: after the demo operations, entry 0 has stats, a
defined `lastUpdate`, and a finite age. -/
theorem runOps_stats_lastUpdate_witness :
    ((runOps demoOps).get ⟨0, by decide⟩).lastUpdate.isSome = true ∧
    ageOf 99 ((runOps demoOps).get ⟨0, by decide⟩).lastUpdate =
      some (99 - ((runOps demoOps).get ⟨0, by decide⟩).lastUpdate.getD 0) := by
  have h := runOps_stats_lastUpdate demoOps (by decide)
    ((runOps demoOps).get ⟨0, by decide⟩) (by decide) (by decide)
  exact ⟨h.1, h.2 99⟩

theorem backoffStep_bounds (b : ℚ) (ev : ConnEvent) (h1 : BACKOFF_FLOOR ≤ b)
    (h2 : b ≤ BACKOFF_CAP) :
    BACKOFF_FLOOR ≤ backoffStep b ev ∧ backoffStep b ev ≤ BACKOFF_CAP := by
  cases ev with
  | opened =>
    constructor <;> norm_num [backoffStep, BACKOFF_FLOOR, BACKOFF_CAP]
  | retryScheduled =>
    unfold BACKOFF_FLOOR at h1
    unfold BACKOFF_CAP at h2
    unfold backoffStep BACKOFF_FLOOR BACKOFF_CAP
    constructor
    · apply le_min
      · linarith
      · norm_num
    · exact min_le_right _ _

/-- C7: the stored reconnect backoff always stays within its floor and its
capped ceiling; one scheduled-retry growth step never decreases it (so the
delays of consecutive reconnect attempts are monotonically non-decreasing),
the ceiling is a fixed point, and entering `open` resets the backoff to its
floor immediately. -/
theorem backoff_spec :
    (∀ evs : List ConnEvent,
      BACKOFF_FLOOR ≤ runBackoff evs ∧ runBackoff evs ≤ BACKOFF_CAP) ∧
    (∀ b : ℚ, BACKOFF_FLOOR ≤ b → b ≤ BACKOFF_CAP →
      b ≤ backoffStep b ConnEvent.retryScheduled) ∧
    (∀ b : ℚ, backoffStep b ConnEvent.opened = BACKOFF_FLOOR) ∧
    backoffStep BACKOFF_CAP ConnEvent.retryScheduled = BACKOFF_CAP ∧
    (∀ (b : ℚ) (n : ℕ), BACKOFF_FLOOR ≤ b → b ≤ BACKOFF_CAP →
      (fun x => backoffStep x ConnEvent.retryScheduled)^[n] b ≤
        (fun x => backoffStep x ConnEvent.retryScheduled)^[n + 1] b) := by
  have hgrow : ∀ b : ℚ, BACKOFF_FLOOR ≤ b → b ≤ BACKOFF_CAP →
      b ≤ backoffStep b ConnEvent.retryScheduled := by
    intro b h1 h2
    unfold BACKOFF_FLOOR at h1
    unfold backoffStep
    apply le_min
    · linarith
    · exact h2
  have hiter : ∀ (n : ℕ) (b : ℚ), BACKOFF_FLOOR ≤ b → b ≤ BACKOFF_CAP →
      BACKOFF_FLOOR ≤ (fun x => backoffStep x ConnEvent.retryScheduled)^[n] b ∧
      (fun x => backoffStep x ConnEvent.retryScheduled)^[n] b ≤ BACKOFF_CAP := by
    intro n
    induction n with
    | zero => intro b h1 h2; exact ⟨h1, h2⟩
    | succ n ih =>
      intro b h1 h2
      rw [Function.iterate_succ_apply]
      have hb := backoffStep_bounds b ConnEvent.retryScheduled h1 h2
      exact ih _ hb.1 hb.2
  refine ⟨?_, hgrow, fun b => rfl, ?_, ?_⟩
  · have hgen : ∀ (evs : List ConnEvent) (b : ℚ),
        BACKOFF_FLOOR ≤ b → b ≤ BACKOFF_CAP →
        BACKOFF_FLOOR ≤ evs.foldl backoffStep b ∧
          evs.foldl backoffStep b ≤ BACKOFF_CAP := by
      intro evs
      induction evs with
      | nil => intro b h1 h2; exact ⟨h1, h2⟩
      | cons ev evs ih =>
        intro b h1 h2
        have hb := backoffStep_bounds b ev h1 h2
        exact ih _ hb.1 hb.2
    intro evs
    exact hgen evs BACKOFF_FLOOR (le_refl _)
      (by norm_num [BACKOFF_FLOOR, BACKOFF_CAP])
  · show min (15000 * (8 / 5) : ℚ) 15000 = 15000
    norm_num
  · intro b n h1 h2
    rw [Function.iterate_succ_apply']
    have hb := hiter n b h1 h2
    exact hgrow _ hb.1 hb.2

/-- Witness for C7 after two growth steps from the floor. -/
theorem backoff_spec_witness :
    BACKOFF_FLOOR ≤ runBackoff [ConnEvent.retryScheduled, ConnEvent.retryScheduled] ∧
    runBackoff [ConnEvent.retryScheduled, ConnEvent.retryScheduled] ≤ BACKOFF_CAP ∧
    BACKOFF_FLOOR ≤ backoffStep BACKOFF_FLOOR ConnEvent.retryScheduled :=
  ⟨(backoff_spec.1 [ConnEvent.retryScheduled, ConnEvent.retryScheduled]).1,
   (backoff_spec.1 [ConnEvent.retryScheduled, ConnEvent.retryScheduled]).2,
   backoff_spec.2.1 BACKOFF_FLOOR (le_refl _)
     (by norm_num [BACKOFF_FLOOR, BACKOFF_CAP])⟩

theorem filterMap_guard {α β : Type} (p : α → Bool) (g : α → β) (l : List α) :
    l.filterMap (fun a => if p a then some (g a) else none) = (l.filter p).map g := by
  induction l with
  | nil => rfl
  | cons a l ih =>
    rw [List.filterMap_cons, List.filter_cons]
    by_cases h : p a = true
    · rw [if_pos h, if_pos h, List.map_cons, ih]
    · rw [if_neg h, if_neg h, ih]

theorem collectBadNames_cons (d : JValue) (ds : List JValue) :
    collectBadNames (d :: ds) =
      if isBadDetail d then badDetailName d :: collectBadNames ds
      else collectBadNames ds := by
  unfold collectBadNames
  rw [List.filterMap_cons]
  cases d with
  | jobj fields =>
    cases hs : jsToString (jget (JValue.jobj fields) "status") with
    | none => simp [isBadDetail, hs]
    | some s =>
      by_cases hb : ¬s = "" ∧ ¬jsToLowerCase s = "online"
      · simp [isBadDetail, badDetailName, hs, hb]
      · simp [isBadDetail, badDetailName, hs, hb]
  | jnull => simp [isBadDetail]
  | jbool b => simp [isBadDetail]
  | jnum q => simp [isBadDetail]
  | jstr s => simp [isBadDetail]
  | jarr items => simp [isBadDetail]

theorem collectBadNames_eq (details : List JValue) :
    collectBadNames details = (details.filter isBadDetail).map badDetailName := by
  induction details with
  | nil => rfl
  | cons d ds ih =>
    rw [collectBadNames_cons, List.filter_cons]
    by_cases h : isBadDetail d = true
    · rw [if_pos h, if_pos h, List.map_cons, ih]
    · rw [if_neg h, if_neg h, ih]

/-- C5: both stats parsers derive the PM2 bad-process fields by the same
rule: whenever the input carries a `pm2.details` array, the parsed update's
`pm2BadCount` equals the number of detail entries whose status string,
compared case-insensitively, is not `"online"`, and `pm2BadNames` is the
first 3 of their names/ids; and every update produced by the batch parser
comes from the same per-entry normalisation. -/
theorem pm2_bad_rule_spec :
    (∀ (value : JValue) (u : IncomingServerUpdate) (details : List JValue),
      pm2DetailsOf value = some details →
      parseServerUpdate value = some u →
      u.pm2BadCount = some (((details.filter isBadDetail).length : ℚ)) ∧
      u.pm2BadNames = some (((details.filter isBadDetail).map badDetailName).take 3)) ∧
    (∀ (entry : JValue) (u : IncomingServerUpdate) (details : List JValue),
      pm2DetailsOf entry = some details →
      parseStatsEntry entry = some u →
      u.pm2BadCount = some (((details.filter isBadDetail).length : ℚ)) ∧
      u.pm2BadNames = some (((details.filter isBadDetail).map badDetailName).take 3)) ∧
    (∀ (value : JValue) (u : IncomingServerUpdate),
      u ∈ parseStatsList value → ∃ entry, parseStatsEntry entry = some u) := by
  refine ⟨?_, ?_, ?_⟩
  · intro value u details hdet hparse
    unfold parseServerUpdate at hparse
    cases value with
    | jobj fields =>
      cases hsid : jsToString (jget (JValue.jobj fields) "server_id") with
      | none => rw [hsid] at hparse; exact Option.noConfusion hparse
      | some sid =>
        simp only [hsid] at hparse
        by_cases hempty : sid = ""
        · rw [if_pos hempty] at hparse; exact Option.noConfusion hparse
        · rw [if_neg hempty] at hparse
          simp only [hdet] at hparse
          have hu := Option.some.inj hparse
          rw [← hu]
          constructor
          · show some (((collectBadNames details).length : ℕ) : ℚ) = _
            rw [collectBadNames_eq, List.length_map]
          · show some ((collectBadNames details).take 3) = _
            rw [collectBadNames_eq]
    | jnull => exact Option.noConfusion hparse
    | jbool b => exact Option.noConfusion hparse
    | jnum q => exact Option.noConfusion hparse
    | jstr s => exact Option.noConfusion hparse
    | jarr items => exact Option.noConfusion hparse
  · intro entry u details hdet hparse
    unfold parseStatsEntry at hparse
    cases entry with
    | jobj fields =>
      cases hsid : (jsToString (jget (JValue.jobj fields) "server_id")).orElse
          (fun _ => jsToString (jget (JValue.jobj fields) "id")) with
      | none => rw [hsid] at hparse; exact Option.noConfusion hparse
      | some sid =>
        simp only [hsid] at hparse
        by_cases hempty : sid = ""
        · rw [if_pos hempty] at hparse; exact Option.noConfusion hparse
        · rw [if_neg hempty] at hparse
          simp only [hdet] at hparse
          have hu := Option.some.inj hparse
          rw [← hu]
          constructor
          · show some (((collectBadNames details).length : ℕ) : ℚ) = _
            rw [collectBadNames_eq, List.length_map]
          · show some ((collectBadNames details).take 3) = _
            rw [collectBadNames_eq]
    | jnull => exact Option.noConfusion hparse
    | jbool b => exact Option.noConfusion hparse
    | jnum q => exact Option.noConfusion hparse
    | jstr s => exact Option.noConfusion hparse
    | jarr items => exact Option.noConfusion hparse
  · intro value u hmem
    unfold parseStatsList at hmem
    cases value with
    | jobj fields =>
      cases hserv : jget (JValue.jobj fields) "servers" with
      | none => simp only [hserv] at hmem; simp at hmem
      | some sv =>
        simp only [hserv] at hmem
        cases sv with
        | jarr entries =>
          obtain ⟨entry, _, hp⟩ := List.mem_filterMap.mp hmem
          exact ⟨entry, hp⟩
        | jnull => simp at hmem
        | jbool b => simp at hmem
        | jnum q => simp at hmem
        | jstr s => simp at hmem
        | jobj fields2 => simp at hmem
    | jnull => simp at hmem
    | jbool b => simp at hmem
    | jnum q => simp at hmem
    | jstr s => simp at hmem
    | jarr items => simp at hmem

/-- The `pm2.details` array of the C5 witness frame: one stopped process,
one online process. -/
def pm2FrameDetails : List JValue :=
  [.jobj [("name", .jstr "worker"), ("status", .jstr "STOPPED")],
   .jobj [("name", .jstr "web"), ("status", .jstr "online")]]

/-- A push stats frame carrying the witness `pm2.details`. -/
def pm2Frame : JValue :=
  .jobj [("server_id", .jstr "a"),
    ("pm2", .jobj [("details", .jarr pm2FrameDetails)])]

/-- The update `parseServerUpdate` produces for `pm2Frame`. -/
def pm2FrameUpdate : IncomingServerUpdate :=
  { server_id := "a", pm2BadCount := some 1, pm2BadNames := some ["worker"] }

/-- Witness for C5 at a concrete frame: one of two processes is bad. -/
theorem pm2_bad_rule_spec_witness :
    pm2FrameUpdate.pm2BadCount =
      some (((pm2FrameDetails.filter isBadDetail).length : ℚ)) ∧
    pm2FrameUpdate.pm2BadNames =
      some (((pm2FrameDetails.filter isBadDetail).map badDetailName).take 3) :=
  pm2_bad_rule_spec.1 pm2Frame pm2FrameUpdate pm2FrameDetails rfl (by decide)

theorem mapGet_mapSet_self {β : Type} (m : List (String × β)) (k : String)
    (v : β) : mapGet (mapSet m k v) k = some v := by
  unfold mapSet
  by_cases hany : m.any (fun kv => kv.1 = k) = true
  · rw [if_pos hany]
    unfold mapGet
    rw [← List.map_reverse, List.find?_map]
    have hfun : ((fun kv : String × β => decide (kv.1 = k)) ∘
        (fun kv => if kv.1 = k then (k, v) else kv)) =
        (fun kv : String × β => decide (kv.1 = k)) := by
      funext kv
      by_cases hkv : kv.1 = k <;> simp [hkv]
    rw [hfun]
    have hex : ∃ kv, kv ∈ m.reverse ∧ (fun kv : String × β => decide (kv.1 = k)) kv = true := by
      obtain ⟨kv, hkv, hp⟩ := List.any_eq_true.mp hany
      exact ⟨kv, List.mem_reverse.mpr hkv, by simpa using hp⟩
    have hsome := List.find?_isSome.mpr hex
    cases hfind : m.reverse.find? (fun kv : String × β => decide (kv.1 = k)) with
    | none => rw [hfind] at hsome; simp at hsome
    | some kv0 =>
      have hk0 : kv0.1 = k := by simpa using List.find?_some hfind
      show some ((if kv0.1 = k then (k, v) else kv0).2) = some v
      rw [if_pos hk0]
  · rw [if_neg hany]
    unfold mapGet
    have hrev : (m ++ [(k, v)]).reverse = (k, v) :: m.reverse := by
      rw [List.reverse_append]
      rfl
    rw [hrev, List.find?_cons_of_pos _ (by simp)]
    rfl

theorem mapGet_mapSet_ne {β : Type} (m : List (String × β)) (k k' : String)
    (v : β) (h : k' ≠ k) : mapGet (mapSet m k v) k' = mapGet m k' := by
  unfold mapSet
  by_cases hany : m.any (fun kv => kv.1 = k) = true
  · rw [if_pos hany]
    unfold mapGet
    rw [← List.map_reverse, List.find?_map]
    have hfun : ((fun kv : String × β => decide (kv.1 = k')) ∘
        (fun kv => if kv.1 = k then (k, v) else kv)) =
        (fun kv : String × β => decide (kv.1 = k')) := by
      funext kv
      by_cases hkv : kv.1 = k
      · show decide ((if kv.1 = k then (k, v) else kv).1 = k') = decide (kv.1 = k')
        rw [if_pos hkv, hkv]
      · show decide ((if kv.1 = k then (k, v) else kv).1 = k') = decide (kv.1 = k')
        rw [if_neg hkv]
    rw [hfun]
    cases hfind : m.reverse.find? (fun kv : String × β => decide (kv.1 = k')) with
    | none => rfl
    | some kv0 =>
      have hk0 : kv0.1 = k' := by simpa using List.find?_some hfind
      show some ((if kv0.1 = k then (k, v) else kv0).2) = some kv0.2
      rw [if_neg (by rw [hk0]; exact h)]
  · rw [if_neg hany]
    unfold mapGet
    have hrev : (m ++ [(k, v)]).reverse = (k, v) :: m.reverse := by
      rw [List.reverse_append]
      rfl
    rw [hrev, List.find?_cons_of_neg _
      (by simp only [decide_eq_true_eq]; exact fun hh => h hh.symm)]

theorem find?_filter_of_imp {α : Type} (l : List α) (p q : α → Bool)
    (h : ∀ x, p x = true → q x = true) :
    (l.filter q).find? p = l.find? p := by
  induction l with
  | nil => rfl
  | cons a l ih =>
    rw [List.filter_cons]
    by_cases hq : q a = true
    · rw [if_pos hq]
      by_cases hp : p a = true
      · rw [List.find?_cons_of_pos _ hp, List.find?_cons_of_pos _ hp]
      · rw [List.find?_cons_of_neg _ hp, List.find?_cons_of_neg _ hp, ih]
    · have hp : ¬ p a = true := fun hpa => hq (h a hpa)
      rw [if_neg hq, List.find?_cons_of_neg _ hp, ih]

theorem mapGet_filter_mem {β : Type} (m : List (String × β)) (ids : List String)
    (k : String) (hk : k ∈ ids) :
    mapGet (m.filter (fun kv => kv.1 ∈ ids)) k = mapGet m k := by
  unfold mapGet
  rw [← List.filter_reverse, find?_filter_of_imp]
  intro kv hp
  have hkv : kv.1 = k := by simpa using hp
  simp [hkv, hk]

theorem mem_mapSet {β : Type} (m : List (String × β)) (k : String) (v : β)
    (kv : String × β) (h : kv ∈ mapSet m k v) : kv = (k, v) ∨ kv ∈ m := by
  unfold mapSet at h
  split at h
  · obtain ⟨kv0, hkv0, hmap⟩ := List.mem_map.mp h
    by_cases hk0 : kv0.1 = k
    · rw [if_pos hk0] at hmap
      exact Or.inl hmap.symm
    · rw [if_neg hk0] at hmap
      exact Or.inr (hmap ▸ hkv0)
  · rcases List.mem_append.mp h with h1 | h1
    · exact Or.inr h1
    · exact Or.inl (List.mem_singleton.mp h1)

theorem notifyCond_congr (m m' : List (String × ToastRecord)) (issue : Pm2Issue)
    (nowMs repeatMs : ℤ) (h : mapGet m issue.id = mapGet m' issue.id) :
    notifyCond m issue nowMs repeatMs = notifyCond m' issue nowMs repeatMs := by
  unfold notifyCond
  rw [h]

theorem pm2ToastVisit_eq (nowMs repeatMs : ℤ)
    (acc : List String × List (String × ToastRecord)) (issue : Pm2Issue) :
    pm2ToastVisit nowMs repeatMs acc issue =
      if notifyCond acc.2 issue nowMs repeatMs then
        (acc.1 ++ [issue.id], mapSet acc.2 issue.id ⟨issueSignature issue, nowMs⟩)
      else acc := rfl

theorem pm2ToastFold_notified (nowMs repeatMs : ℤ) :
    ∀ (issues : List Pm2Issue) (ns : List String)
      (m base : List (String × ToastRecord)),
      (issues.map (fun i => i.id)).Nodup →
      (∀ issue ∈ issues, mapGet m issue.id = mapGet base issue.id) →
      (issues.foldl (pm2ToastVisit nowMs repeatMs) (ns, m)).1 =
        ns ++ (issues.filter (fun i => notifyCond base i nowMs repeatMs)).map
          (fun i => i.id) := by
  intro issues
  induction issues with
  | nil => intro ns m base _ _; simp
  | cons i is ih =>
    intro ns m base hnodup hagree
    rw [List.foldl_cons, List.filter_cons]
    have hmi : mapGet m i.id = mapGet base i.id := hagree i (List.mem_cons_self i is)
    simp only [List.map_cons, List.nodup_cons] at hnodup
    rw [pm2ToastVisit_eq]
    by_cases hc : notifyCond m i nowMs repeatMs = true
    · have hcb : notifyCond base i nowMs repeatMs = true :=
        (notifyCond_congr base m i nowMs repeatMs hmi.symm).trans hc
      rw [if_pos hc, if_pos hcb]
      rw [ih (ns ++ [i.id]) _ base hnodup.2 ?agree]
      · simp
      case agree =>
        intro issue hissue
        rw [mapGet_mapSet_ne]
        · exact hagree issue (List.mem_cons_of_mem _ hissue)
        · intro heq
          exact hnodup.1 (heq ▸ List.mem_map_of_mem (fun i => i.id) hissue)
    · have hcb : ¬ notifyCond base i nowMs repeatMs = true := fun hb =>
        hc ((notifyCond_congr m base i nowMs repeatMs hmi).trans hb)
      rw [if_neg hc, if_neg hcb]
      exact ih ns m base hnodup.2
        (fun issue hissue => hagree issue (List.mem_cons_of_mem _ hissue))

theorem pm2ToastFold_keys (nowMs repeatMs : ℤ) :
    ∀ (issues : List Pm2Issue) (ns : List String)
      (m : List (String × ToastRecord)) (kv : String × ToastRecord),
      kv ∈ (issues.foldl (pm2ToastVisit nowMs repeatMs) (ns, m)).2 →
      kv.1 ∈ m.map (fun kv => kv.1) ∨ kv.1 ∈ issues.map (fun i => i.id) := by
  intro issues
  induction issues with
  | nil =>
    intro ns m kv h
    exact Or.inl (List.mem_map_of_mem _ h)
  | cons i is ih =>
    intro ns m kv h
    rw [List.foldl_cons, pm2ToastVisit_eq] at h
    by_cases hc : notifyCond m i nowMs repeatMs = true
    · rw [if_pos hc] at h
      rcases ih _ _ kv h with h1 | h1
      · obtain ⟨kv0, hkv0, hfst⟩ := List.mem_map.mp h1
        rcases mem_mapSet m i.id _ kv0 hkv0 with heq | hm
        · refine Or.inr ?_
          rw [List.map_cons]
          rw [← hfst, heq]
          exact List.mem_cons_self _ _
        · exact Or.inl (List.mem_map.mpr ⟨kv0, hm, hfst⟩)
      · refine Or.inr ?_
        rw [List.map_cons]
        exact List.mem_cons_of_mem _ h1
    · rw [if_neg hc] at h
      rcases ih _ _ kv h with h1 | h1
      · exact Or.inl h1
      · refine Or.inr ?_
        rw [List.map_cons]
        exact List.mem_cons_of_mem _ h1

theorem pm2ToastStep_notified (issues : List Pm2Issue)
    (recs : List (String × ToastRecord)) (nowMs repeatMs : ℤ)
    (hne : issues ≠ []) (hnodup : (issues.map (fun i => i.id)).Nodup) :
    (pm2ToastStep issues recs nowMs repeatMs).1 =
      (issues.filter (fun i => notifyCond recs i nowMs repeatMs)).map
        (fun i => i.id) := by
  have hemp : issues.isEmpty = false := by
    cases issues with
    | nil => exact absurd rfl hne
    | cons _ _ => rfl
  unfold pm2ToastStep
  rw [if_neg (by rw [hemp]; exact Bool.false_ne_true)]
  rw [pm2ToastFold_notified nowMs repeatMs issues [] _ recs hnodup ?agree]
  · rw [List.nil_append]
  case agree =>
    intro issue hissue
    exact mapGet_filter_mem recs _ issue.id
      (List.mem_map_of_mem (fun i => i.id) hissue)

theorem pm2ToastStep_single_map (issue : Pm2Issue)
    (recs : List (String × ToastRecord)) (nowMs repeatMs : ℤ)
    (hc : notifyCond recs issue nowMs repeatMs = true) :
    mapGet (pm2ToastStep [issue] recs nowMs repeatMs).2 issue.id =
      some ⟨issueSignature issue, nowMs⟩ := by
  unfold pm2ToastStep
  rw [if_neg (by simp)]
  rw [List.foldl_cons, List.foldl_nil, pm2ToastVisit_eq]
  have hpr : notifyCond (recs.filter
      (fun kv => kv.1 ∈ [issue].map (fun i => i.id))) issue nowMs repeatMs = true :=
    (notifyCond_congr _ recs issue nowMs repeatMs
      (mapGet_filter_mem recs _ issue.id (by simp))).trans hc
  rw [if_pos hpr]
  exact mapGet_mapSet_self _ issue.id _

/-- C6: the PM2 notification throttle notifies for an entity in the alert
set exactly when no prior record exists for its id, or its signature
changed, or the repeat interval elapsed; every surviving throttle record
belongs to a current alert entity (drop-outs are removed, and an empty
alert set clears the map); two consecutive evaluations with an identical
signature inside the repeat window fire exactly one notification; and a
changed signature fires again immediately regardless of the window. -/
theorem pm2Toast_throttle_spec :
    (∀ (issues : List Pm2Issue) (recs : List (String × ToastRecord))
       (nowMs repeatMs : ℤ),
      issues ≠ [] → (issues.map (fun i => i.id)).Nodup →
      (pm2ToastStep issues recs nowMs repeatMs).1 =
        (issues.filter (fun i => notifyCond recs i nowMs repeatMs)).map
          (fun i => i.id)) ∧
    (∀ (issues : List Pm2Issue) (recs : List (String × ToastRecord))
       (nowMs repeatMs : ℤ) (kv : String × ToastRecord),
      kv ∈ (pm2ToastStep issues recs nowMs repeatMs).2 →
      kv.1 ∈ issues.map (fun i => i.id)) ∧
    (∀ (issue : Pm2Issue) (recs : List (String × ToastRecord))
       (t0 t1 repeatMs : ℤ),
      notifyCond recs issue t0 repeatMs = true → t1 - t0 < repeatMs →
      (pm2ToastStep [issue] recs t0 repeatMs).1 = [issue.id] ∧
      (pm2ToastStep [issue] (pm2ToastStep [issue] recs t0 repeatMs).2
        t1 repeatMs).1 = []) ∧
    (∀ (issue : Pm2Issue) (recs : List (String × ToastRecord))
       (t1 repeatMs : ℤ) (previous : ToastRecord),
      mapGet recs issue.id = some previous →
      previous.signature ≠ issueSignature issue →
      (pm2ToastStep [issue] recs t1 repeatMs).1 = [issue.id]) := by
  refine ⟨?_, ?_, ?_, ?_⟩
  · intro issues recs nowMs repeatMs hne hnodup
    exact pm2ToastStep_notified issues recs nowMs repeatMs hne hnodup
  · intro issues recs nowMs repeatMs kv hkv
    cases issues with
    | nil => exact absurd hkv (by simp [pm2ToastStep])
    | cons i is =>
      unfold pm2ToastStep at hkv
      rw [if_neg (by simp)] at hkv
      rcases pm2ToastFold_keys nowMs repeatMs (i :: is) [] _ kv hkv with h1 | h1
      · obtain ⟨kv0, hkv0, hfst⟩ := List.mem_map.mp h1
        have hmem := List.mem_filter.mp hkv0
        rw [← hfst]
        simpa using hmem.2
      · exact h1
  · intro issue recs t0 t1 repeatMs hc hwin
    have h1 : (pm2ToastStep [issue] recs t0 repeatMs).1 = [issue.id] := by
      rw [pm2ToastStep_notified [issue] recs t0 repeatMs (by simp) (by simp)]
      simp [hc]
    refine ⟨h1, ?_⟩
    have hmap2 := pm2ToastStep_single_map issue recs t0 repeatMs hc
    have hc2 : notifyCond (pm2ToastStep [issue] recs t0 repeatMs).2 issue
        t1 repeatMs = false := by
      unfold notifyCond
      rw [hmap2]
      simp
      omega
    rw [pm2ToastStep_notified [issue] _ t1 repeatMs (by simp) (by simp)]
    simp [hc2]
  · intro issue recs t1 repeatMs previous hprev hsig
    have hc : notifyCond recs issue t1 repeatMs = true := by
      unfold notifyCond
      rw [hprev]
      simp [hsig]
    rw [pm2ToastStep_notified [issue] recs t1 repeatMs (by simp) (by simp)]
    simp [hc]

/-- An alert-set entity with two bad processes, for the C6 witness. -/
def toastIssue : Pm2Issue :=
  { id := "a", name := "A", count := 2, names := ["w1", "w2"] }

/-- Witness for C6: with no prior record the first evaluation notifies, and
a second identical evaluation 500 ms later (inside the 600000 ms window)
does not. -/
theorem pm2Toast_throttle_spec_witness :
    (pm2ToastStep [toastIssue] [] 1000 600000).1 = [toastIssue.id] ∧
    (pm2ToastStep [toastIssue] (pm2ToastStep [toastIssue] [] 1000 600000).2
      1500 600000).1 = [] :=
  pm2Toast_throttle_spec.2.2.1 toastIssue [] 1000 1500 600000 (by decide)
    (by decide)

end BCD
